import Mathlib

/-!
Verification of the text-extraction core of the menu-ai application
(`src/app.py`): the shopping-list parser `parse_shopping_list`, the
deduplicator `uniq_keep_order`, the menu-day trimmer `trim_menu_days`, the
menu-mode prompt builder, and the generation run block.

Modelling conventions (shallow embedding of the Python source):
* Python strings are Lean `String`s; character-level work is done on `.data`.
* The regex character class `\d` is modelled as the ASCII digits
  (`Char.isDigit`) and `\s` / `str.strip()` whitespace as the explicit set
  `isPySpace`; `str.splitlines()` is modelled as splitting on `'\n'`.
* Python `dict` (which preserves insertion order) is modelled as an
  association list `List (String × List String)`.
* `sqlite` rows are modelled as association lists; Streamlit's
  `st.error`/`st.stop()` abort is modelled as returning the unchanged store
  together with `none`.
-/

/-- Whitespace characters stripped by Python `str.strip()` (the ones relevant
to this code base: ASCII whitespace and the ideographic space). -/
def isPySpace (c : Char) : Bool :=
  c = ' ' || c = '\t' || c = '\n' || c = '\r' || c = '\x0b' || c = '\x0c' || c = '　'

/-- Python `str.strip()` on a character list. -/
def stripChars (l : List Char) : List Char :=
  ((l.dropWhile isPySpace).reverse.dropWhile isPySpace).reverse

/-- Python `str.strip()`. -/
def pyStrip (s : String) : String := ⟨stripChars s.data⟩

/-- Index of the first occurrence of `pat` in `l` (the position at which
`re.search` for a plain-text pattern matches), `none` if absent. -/
def firstIdx (pat : List Char) : List Char → Option Nat
  | [] => if pat.isEmpty then some 0 else none
  | c :: cs => if pat.isPrefixOf (c :: cs) then some 0 else (firstIdx pat cs).map (· + 1)

/-- Whether `pat` occurs as a substring of `s`. -/
def containsSubstr (s pat : String) : Bool := (firstIdx pat.data s.data).isSome

/-- Python `str.splitlines()` restricted to `'\n'` separators (helper). -/
def splitLinesGo (cur : List Char) : List Char → List (List Char)
  | [] => [cur.reverse]
  | c :: cs => if c = '\n' then cur.reverse :: splitLinesGo [] cs else splitLinesGo (c :: cur) cs

/-- Python `str.splitlines()` restricted to `'\n'` separators. -/
def splitLines (l : List Char) : List (List Char) := splitLinesGo [] l

/-- Python `ln.lstrip("・- ")`: drop leading bullet characters. -/
def lstripBullets (l : List Char) : List Char :=
  l.dropWhile (fun c => c = '・' || c = '-' || c = ' ')

/-- The day-header regex of `parse_shopping_list`
(`^(?P<day>\d+日目)[:：]\s*$`, applied with `match` to an already-stripped
line): on success returns the captured group `day` (the digits followed by
`日目`, without the colon). -/
def dayHeaderKey (ln : List Char) : Option (List Char) :=
  let ds := ln.takeWhile Char.isDigit
  let rest := ln.dropWhile Char.isDigit
  if ds.isEmpty then none
  else
    match rest with
    | '日' :: '目' :: c :: tail =>
      if (c = ':' || c = '：') && tail.all isPySpace then some (ds ++ ['日', '目']) else none
    | _ => none

/-- Python `k.endswith("日目")`. -/
def endsWithDayMarker (k : String) : Bool := "日目".data.isSuffixOf k.data

/-- Python `day_map.setdefault(k, [])` on the insertion-ordered association list. -/
def setdefault (m : List (String × List String)) (k : String) : List (String × List String) :=
  if (m.map Prod.fst).contains k then m else m ++ [(k, [])]

/-- Python `day_map[k].append(v)` (precondition in the source: `k` is present). -/
def mapAppend (m : List (String × List String)) (k : String) (v : String) :
    List (String × List String) :=
  m.map (fun kv => if kv.1 = k then (kv.1, kv.2 ++ [v]) else kv)

/-- Python `day_map.get(k, default)`. -/
def mapGetD (m : List (String × List String)) (k : String) (d : List String) : List String :=
  ((m.find? (fun kv => kv.1 = k)).map Prod.snd).getD d

/-- The line-processing loop of `parse_shopping_list` (src/app.py lines
334-348): `cd` is `current_day`, `m` is `day_map`. -/
def shopLoop (cd : Option String) (m : List (String × List String)) :
    List (List Char) → List (String × List String)
  | [] => m
  | ln :: rest =>
    match dayHeaderKey ln with
    | some k => shopLoop (some ⟨k⟩) (setdefault m ⟨k⟩) rest
    | none =>
      let item := stripChars (lstripBullets ln)
      if item.isEmpty then shopLoop cd m rest
      else
        match cd with
        | some d => shopLoop cd (mapAppend m d ⟨item⟩) rest
        | none => shopLoop cd (mapAppend (setdefault m "all") "all" ⟨item⟩) rest

/-- The function `parse_shopping_list` (src/app.py lines 322-354).  `re.search` for
`【買い物リスト】([\s\S]+)` yields, when the marker occurs and at least one
character follows it, everything after the first occurrence of the marker. -/
def parse_shopping_list (result_text : String) : Option (List (String × List String)) :=
  match firstIdx "【買い物リスト】".data result_text.data with
  | none => none
  | some i =>
    let rest := result_text.data.drop (i + "【買い物リスト】".data.length)
    if rest.isEmpty then none
    else
      let block := stripChars rest
      let lines := ((splitLines block).map stripChars).filter (fun l => !l.isEmpty)
      let day_map := shopLoop none [] lines
      let has_day := (day_map.map Prod.fst).any endsWithDayMarker
      if has_day then some day_map
      else some [("all", mapGetD day_map "all" [])]

/-- The `uniq_keep_order` loop (src/app.py lines 357-364): the `seen` set is
modelled as a list queried by membership. -/
def uniqGo (seen : List String) : List String → List String
  | [] => []
  | x :: xs => if x ∈ seen then uniqGo seen xs else x :: uniqGo (x :: seen) xs

/-- The function `uniq_keep_order` (src/app.py lines 357-364). -/
def uniq_keep_order (items : List String) : List String := uniqGo [] items

/-- One step of the lookahead `(?=\n【材料】|\n【作り方】|\n【買い物リスト】|$)`
of the menu-section regex, tested at position `p` of `text` (`$` without
`re.MULTILINE` matches at the end of the string or just before a final
newline). -/
def lookaheadEnd (text : List Char) (p : Nat) : Bool :=
  List.isPrefixOf "\n【材料】".data (text.drop p) ||
  List.isPrefixOf "\n【作り方】".data (text.drop p) ||
  List.isPrefixOf "\n【買い物リスト】".data (text.drop p) ||
  (text.drop p).isEmpty ||
  text.drop p == ['\n']

/-- Least position `≥ p` at which `lookaheadEnd` holds — the end of the lazy
group `([\s\S]*?)` (fuelled scan; the fuel passed in always reaches the end of
the string, where the lookahead holds). -/
def scanEnd (text : List Char) (p : Nat) : Nat → Nat
  | 0 => p
  | f + 1 => if lookaheadEnd text p then p else scanEnd text (p + 1) f

/-- Span `(start, end)` of group 1 of
`re.search(r"【献立】([\s\S]*?)(?=\n【材料】|\n【作り方】|\n【買い物リスト】|$)", text)`:
the group starts right after the first occurrence of `【献立】` and ends at
the first position where the lookahead succeeds (the match as a whole always
succeeds at the first marker occurrence because `$` holds at the end of the
string). -/
def menuSpan (text : List Char) : Option (Nat × Nat) :=
  match firstIdx "【献立】".data text with
  | none => none
  | some i =>
    let s := i + "【献立】".data.length
    some (s, scanEnd text s (text.length + 1 - s))

/-- Whether `\d+日目：` matches at the start of `l` (the day-block header of
`trim_menu_days`; `\d+` must cover the whole digit run because `日` is not a
digit). -/
def dayHeadAt (l : List Char) : Bool :=
  !(l.takeWhile Char.isDigit).isEmpty &&
    List.isPrefixOf "日目：".data (l.dropWhile Char.isDigit)

/-- The lookahead `(?=\n\d+日目：|$)` ending a day block, tested on the suffix
`l` of the menu block. -/
def dayBlockStop (l : List Char) : Bool :=
  match l with
  | [] => true
  | ['\n'] => true
  | '\n' :: rest => dayHeadAt rest
  | _ => false

/-- Length of the header `\d+日目：` matched at the start of a day block. -/
def headerLen (l : List Char) : Nat := (l.takeWhile Char.isDigit).length + 3

/-- Least `n ≥ start` with `dayBlockStop (l.drop n)` (fuelled; the fuel passed
in always reaches `l.length`, where the stop condition holds). -/
def stopFrom (l : List Char) (n : Nat) : Nat → Nat
  | 0 => n
  | f + 1 => if dayBlockStop (l.drop n) then n else stopFrom l (n + 1) f

/-- The scan of `re.findall(r"(\d+日目：[\s\S]*?)(?=\n\d+日目：|$)", block)`:
find the leftmost header match, extend lazily to the first stop position,
emit the block, and continue scanning at the match end (the lookahead
consumes nothing). -/
def findBlocks : Nat → List Char → List (List Char)
  | 0, _ => []
  | _ + 1, [] => []
  | f + 1, c :: rest =>
    if dayHeadAt (c :: rest) then
      let n := stopFrom (c :: rest) (headerLen (c :: rest)) ((c :: rest).length + 1)
      (c :: rest).take n :: findBlocks f ((c :: rest).drop n)
    else findBlocks f rest

/-- The call `re.findall(r"(\d+日目：[\s\S]*?)(?=\n\d+日目：|$)", block)`. -/
def findAllDayBlocks (block : List Char) : List (List Char) :=
  findBlocks (block.length + 1) block

/-- The function `trim_menu_days` (src/app.py lines 367-384). -/
def trim_menu_days (result_text : String) (days : Int) : String :=
  if days ≤ 0 then result_text
  else
    match menuSpan result_text.data with
    | none => result_text
    | some (s, e) =>
      let menu_block := (result_text.data.drop s).take (e - s)
      let day_blocks := findAllDayBlocks menu_block
      if (day_blocks.length : Int) ≤ days then result_text
      else
        let kept := stripChars (List.intercalate ['\n'] (day_blocks.take days.toNat))
        ⟨result_text.data.take s ++ '\n' :: (kept ++ '\n' :: result_text.data.drop e)⟩

/-- Decimal value of a run of digit characters. -/
def digitsToNat (run : List Char) : Nat :=
  run.foldl (fun a c => a * 10 + (c.toNat - 48)) 0

/-- Modelled from the spec: the QuantityScaler component (spec §4.1) has no
implementation under `src/` (`src/app.py` contains no quantity-scaling
function), so it is modelled from the spec's words: find the first maximal
run of decimal digits; if found, replace that run with its value times the
multiplier rendered in decimal, leaving all other characters untouched; if no
digit run exists, return the input unchanged (helper on character lists). -/
def scaleAmount (k : Nat) : List Char → List Char
  | [] => []
  | c :: cs =>
    if c.isDigit then
      Nat.toDigits 10 (digitsToNat ((c :: cs).takeWhile Char.isDigit) * k) ++
        (c :: cs).dropWhile Char.isDigit
    else c :: scaleAmount k cs

/-- Modelled from the spec: the QuantityScaler operation (spec §4.1), absent
from `src/`; see `scaleAmount`. -/
def scale (s : String) (k : Nat) : String := ⟨scaleAmount k s.data⟩

/-- The menu-mode (`献立モード`) prompt f-string (src/app.py lines 607-647),
with `method_text` computed as on line 575 and the two embedded
`", ".join(selected_meals)` expressions. -/
def menuPrompt (text_input : String) (days people dishes calorie : Nat)
    (selected_meals methods : List String) : String :=
  let meals_text := String.intercalate ", " selected_meals
  let method_text := if methods.isEmpty then "なし" else String.intercalate "、" methods
  "\nあなたは一人暮らし向け献立アドバイザーです。\n\n【入力食材】\n" ++ text_input ++
  "\n\n【条件】\n・日数：" ++ toString days ++ "日分（必ずこの日数だけ）\n・人数：" ++
  toString people ++ "人分\n・食事の時間：" ++ meals_text ++ "\n・1食あたり：" ++
  toString dishes ++ "品\n・目標カロリー：" ++ toString calorie ++
  "kcal\n・調理条件：" ++ method_text ++
  "\n\n【絶対ルール】\n・曜日（月曜など）は一切使わない\n・「1日目」「2日目」…の日数表記にする\n・" ++
  toString days ++
  "日分を超えない\n・入力食材以外は絶対に追加しない（調味料は例外OK）\n・各料理は「料理名 + 一言」も入れる\n\n【出力形式（必ずこの形）】\n【献立】\n1日目：\n" ++
  meals_text ++
  "：\n・料理名：一言\n（1食あたり" ++ toString dishes ++
  "品）\n\n【材料】\n（料理ごとに）\n・材料名 分量\n\n【作り方】\n（料理ごとに短く）\n1. 手順\n2. 手順\n\n【買い物リスト】\n1日目：\n・材料\n"

/-- Outcome of the call to the generation collaborator (src/app.py lines
652-666): a returned text, or one of the three caught exception classes. -/
inductive GenResult
  | success (text : String)
  | rateLimited
  | authFailed
  | unknownFailure
deriving DecidableEq

/-- One row of the `history` table, in the column order of `save_history`
(src/app.py lines 113-130), without the autoincrement id. -/
structure HistoryRow where
  user_id : String
  created_at : String
  mode : String
  input_text : String
  days : Int
  people : Int
  dishes : Int
  meals : String
  methods : String
  calorie : Int
  result : String
deriving DecidableEq

/-- The mutable store shared with the core: the `usage` table (keyed by
`(user_id, day)`) and the `history` table. -/
structure Store where
  usage : List ((String × String) × Nat)
  history : List HistoryRow
deriving DecidableEq

/-- The function `get_today_count` (src/app.py lines 95-98). -/
def get_today_count (usage : List ((String × String) × Nat)) (uid day : String) : Nat :=
  ((usage.find? (fun r => r.1 = (uid, day))).map Prod.snd).getD 0

/-- The function `increment_count` (src/app.py lines 101-107): insert a fresh row with
count 1, or update the existing row to count + 1. -/
def increment_count (usage : List ((String × String) × Nat)) (uid day : String) :
    List ((String × String) × Nat) :=
  let c := get_today_count usage uid day
  if c = 0 then usage ++ [((uid, day), 1)]
  else usage.map (fun r => if r.1 = (uid, day) then (r.1, c + 1) else r)

/-- The generation run block (src/app.py lines 650-678), given the outcome of
the external generation call: on any caught provider error, `st.error` +
`st.stop()` abort the request (modelled as `(store, none)`); on success the
result is trimmed (menu mode only), the usage counter is incremented for
non-premium users, and a history row is appended.  `now` stands for
`datetime.now().isoformat(timespec="seconds")`. -/
def runGeneration (premium recipe_mode : Bool) (uid today now text_input : String)
    (days people dishes : Int) (selected_meals methods : List String) (calorie : Int)
    (gen : GenResult) (store : Store) : Store × Option String :=
  match gen with
  | GenResult.success txt =>
    let result := if recipe_mode then txt else trim_menu_days txt days
    let mode_name := if recipe_mode then "料理名モード" else "献立モード"
    let store1 :=
      if premium then store
      else { store with usage := increment_count store.usage uid today }
    let row : HistoryRow :=
      ⟨uid, now, mode_name, text_input, days, people, dishes,
        String.intercalate "," selected_meals, String.intercalate "," methods,
        calorie, result⟩
    ({ store1 with history := store1.history ++ [row] }, some result)
  | _ => (store, none)

/-! ## Helper lemmas -/

theorem takeWhile_eq_of_all {p : Char → Bool} : ∀ (d r : List Char),
    (∀ c ∈ d, p c = true) → (∀ c ∈ r.head?, p c = false) →
    (d ++ r).takeWhile p = d ∧ (d ++ r).dropWhile p = r
  | [], r, _, hr => by
    cases r with
    | nil => exact ⟨rfl, rfl⟩
    | cons c rs =>
      have hc : p c = false := hr c (by simp)
      simp [List.takeWhile_cons, List.dropWhile_cons, hc]
  | c :: d, r, hd, hr => by
    have hc : p c = true := hd c (by simp)
    have ih := takeWhile_eq_of_all d r (fun x hx => hd x (by simp [hx])) hr
    simp [List.takeWhile_cons, List.dropWhile_cons, hc, ih.1, ih.2]

theorem firstIdx_sound (pat : List Char) : ∀ (l : List Char) (j : Nat),
    firstIdx pat l = some j → pat.isPrefixOf (l.drop j) = true ∧ j + pat.length ≤ l.length
  | [], j, h => by
    unfold firstIdx at h
    split at h
    · cases h
      rename_i hp
      have : pat = [] := by simpa using hp
      subst this
      exact ⟨rfl, by simp⟩
    · cases h
  | c :: cs, j, h => by
    unfold firstIdx at h
    split at h
    · cases h
      rename_i hp
      refine ⟨hp, ?_⟩
      have := (List.isPrefixOf_iff_prefix.mp hp).length_le
      simpa using this
    · rcases Option.map_eq_some'.mp h with ⟨j0, hj0, rfl⟩
      have ih := firstIdx_sound pat cs j0 hj0
      refine ⟨by simpa using ih.1, ?_⟩
      have := ih.2
      simp only [List.length_cons]
      omega

theorem uniqGo_sublist : ∀ (l seen : List String), (uniqGo seen l).Sublist l
  | [], _ => List.Sublist.refl []
  | x :: xs, seen => by
    unfold uniqGo
    split
    · exact (uniqGo_sublist xs seen).cons x
    · exact (uniqGo_sublist xs (x :: seen)).cons₂ x

theorem uniqGo_not_mem_seen : ∀ (l seen : List String) (y : String),
    y ∈ uniqGo seen l → y ∉ seen
  | [], _, _, h => by cases h
  | x :: xs, seen, y, h => by
    unfold uniqGo at h
    split at h
    · exact uniqGo_not_mem_seen xs seen y h
    · rcases List.mem_cons.mp h with rfl | h2
      · rename_i hx
        exact hx
      · intro hy
        exact uniqGo_not_mem_seen xs (x :: seen) y h2 (List.mem_cons_of_mem x hy)

theorem uniqGo_nodup : ∀ (l seen : List String), (uniqGo seen l).Nodup
  | [], _ => List.nodup_nil
  | x :: xs, seen => by
    unfold uniqGo
    split
    · exact uniqGo_nodup xs seen
    · refine List.nodup_cons.mpr ⟨?_, uniqGo_nodup xs (x :: seen)⟩
      intro hx
      exact uniqGo_not_mem_seen xs (x :: seen) x hx (List.mem_cons_self x seen)

theorem uniqGo_mem : ∀ (l seen : List String) (y : String),
    y ∈ l → y ∉ seen → y ∈ uniqGo seen l
  | [], _, _, h, _ => by cases h
  | x :: xs, seen, y, h, hns => by
    unfold uniqGo
    split
    · rcases List.mem_cons.mp h with rfl | h2
      · rename_i hx
        exact absurd hx hns
      · exact uniqGo_mem xs seen y h2 hns
    · rcases List.mem_cons.mp h with rfl | h2
      · exact List.mem_cons_self _ _
      · by_cases hyx : y = x
        · subst hyx
          exact List.mem_cons_self _ _
        · refine List.mem_cons_of_mem _ (uniqGo_mem xs (x :: seen) y h2 ?_)
          intro hc
          rcases List.mem_cons.mp hc with rfl | hc2
          · exact hyx rfl
          · exact hns hc2

theorem uniqGo_eq_self : ∀ (l seen : List String),
    l.Nodup → (∀ y ∈ l, y ∉ seen) → uniqGo seen l = l
  | [], _, _, _ => rfl
  | x :: xs, seen, hnd, hdisj => by
    unfold uniqGo
    rw [if_neg (hdisj x (List.mem_cons_self x xs))]
    congr 1
    refine uniqGo_eq_self xs (x :: seen) (List.nodup_cons.mp hnd).2 ?_
    intro y hy hc
    rcases List.mem_cons.mp hc with rfl | hc2
    · exact (List.nodup_cons.mp hnd).1 hy
    · exact hdisj y (List.mem_cons_of_mem x hy) hc2

theorem uniqGo_seen_congr : ∀ (l seen1 seen2 : List String),
    (∀ a, a ∈ seen1 ↔ a ∈ seen2) → uniqGo seen1 l = uniqGo seen2 l
  | [], _, _, _ => rfl
  | x :: xs, s1, s2, h => by
    unfold uniqGo
    by_cases hx : x ∈ s1
    · rw [if_pos hx, if_pos ((h x).mp hx)]
      exact uniqGo_seen_congr xs s1 s2 h
    · rw [if_neg hx, if_neg (fun hc => hx ((h x).mpr hc))]
      congr 1
      refine uniqGo_seen_congr xs (x :: s1) (x :: s2) ?_
      intro a
      simp only [List.mem_cons, h a]

theorem uniqGo_cons_seen : ∀ (l seen : List String) (x : String),
    uniqGo (x :: seen) l = uniqGo seen (l.filter (fun y => y != x))
  | [], _, _ => rfl
  | y :: ys, seen, x => by
    by_cases hyx : y = x
    · subst hyx
      rw [show (y :: ys).filter (fun z => z != y) = ys.filter (fun z => z != y) from by
        simp [List.filter_cons]]
      conv_lhs => unfold uniqGo
      rw [if_pos (List.mem_cons_self y seen)]
      exact uniqGo_cons_seen ys seen y
    · rw [show (y :: ys).filter (fun z => z != x) = y :: ys.filter (fun z => z != x) from by
        simp [List.filter_cons, hyx]]
      by_cases hy : y ∈ seen
      · conv_lhs => unfold uniqGo
        rw [if_pos (List.mem_cons_of_mem x hy)]
        conv_rhs => unfold uniqGo
        rw [if_pos hy]
        exact uniqGo_cons_seen ys seen x
      · conv_lhs => unfold uniqGo
        rw [if_neg (by
          intro hc
          rcases List.mem_cons.mp hc with h1 | h2
          · exact hyx h1
          · exact hy h2)]
        conv_rhs => unfold uniqGo
        rw [if_neg hy]
        congr 1
        rw [uniqGo_seen_congr ys (y :: x :: seen) (x :: y :: seen) (by
          intro a
          simp only [List.mem_cons]
          tauto)]
        exact uniqGo_cons_seen ys (y :: seen) x

theorem uniq_keep_order_cons (x : String) (xs : List String) :
    uniq_keep_order (x :: xs) = x :: uniq_keep_order (xs.filter (fun y => y != x)) := by
  unfold uniq_keep_order
  conv_lhs => unfold uniqGo
  rw [if_neg (List.not_mem_nil x)]
  congr 1
  exact uniqGo_cons_seen xs [] x

theorem uniq_keep_order_unique_aux (f : List String → List String)
    (h0 : f [] = [])
    (h1 : ∀ (x : String) (xs : List String),
      f (x :: xs) = x :: f (xs.filter (fun y => y != x))) :
    ∀ (n : Nat) (l : List String), l.length ≤ n → f l = uniq_keep_order l
  | 0, [], _ => h0
  | 0, _ :: _, h => by simp at h
  | _ + 1, [], _ => h0
  | n + 1, x :: xs, h => by
    rw [h1 x xs, uniq_keep_order_cons x xs]
    congr 1
    refine uniq_keep_order_unique_aux f h0 h1 n (xs.filter (fun y => y != x)) ?_
    have hf := List.length_filter_le (fun y => y != x) xs
    simp only [List.length_cons] at h
    omega

/-! ## Claim theorems -/

/-- C6: the deduplicator `uniq_keep_order` returns the subsequence keeping
exactly the first occurrence of each distinct string in first-seen order:
it is a duplicate-free sublist of its input containing every element of the
input and — pinning the order down completely — it satisfies the
first-occurrence recurrence `uniq (x :: xs) = x :: uniq (xs with every later
duplicate of x removed)`, which determines a unique function (final
conjunct); `dedupe(["卵","豆腐","卵"]) = ["卵","豆腐"]`, and it is
idempotent. -/
theorem uniq_keep_order_contract (l : List String) :
    uniq_keep_order ["卵", "豆腐", "卵"] = ["卵", "豆腐"] ∧
    uniq_keep_order (uniq_keep_order l) = uniq_keep_order l ∧
    (uniq_keep_order l).Sublist l ∧
    (uniq_keep_order l).Nodup ∧
    (∀ y ∈ l, y ∈ uniq_keep_order l) ∧
    uniq_keep_order [] = [] ∧
    (∀ (x : String) (xs : List String),
      uniq_keep_order (x :: xs) = x :: uniq_keep_order (xs.filter (fun y => y != x))) ∧
    (∀ f : List String → List String, f [] = [] →
      (∀ (x : String) (xs : List String),
        f (x :: xs) = x :: f (xs.filter (fun y => y != x))) →
      f l = uniq_keep_order l) := by
  refine ⟨by decide, ?_, uniqGo_sublist l [], uniqGo_nodup l [], ?_, rfl,
    uniq_keep_order_cons, ?_⟩
  · exact uniqGo_eq_self (uniqGo [] l) [] (uniqGo_nodup l []) (by simp)
  · intro y hy
    exact uniqGo_mem l [] y hy (by simp)
  · intro f h0 h1
    exact uniq_keep_order_unique_aux f h0 h1 l.length l (Nat.le_refl _)

/-- C6 witness: the contract instantiated at a concrete list — membership and
the first-occurrence recurrence at the head `"a"` of `["a","b","a"]`. -/
theorem uniq_keep_order_contract_witness :
    "b" ∈ uniq_keep_order ["a", "b", "a"] ∧
    uniq_keep_order ("a" :: ["b", "a"]) =
      "a" :: uniq_keep_order (["b", "a"].filter (fun y => y != "a")) :=
  ⟨(uniq_keep_order_contract ["a", "b", "a"]).2.2.2.2.1 "b" (by decide),
   (uniq_keep_order_contract ["a", "b", "a"]).2.2.2.2.2.2.1 "a" ["b", "a"]⟩

/-- C10 (implicit): `trim_menu_days` is total outside the spec's `N ≥ 1`
precondition — for every text and every day count `≤ 0` it returns the input
unchanged. -/
theorem trim_menu_days_nonpositive (text : String) (days : Int) (h : days ≤ 0) :
    trim_menu_days text days = text := by
  unfold trim_menu_days
  rw [if_pos h]

/-- C10 witness: day count 0 on a text that has a trimmable menu section. -/
theorem trim_menu_days_nonpositive_witness :
    trim_menu_days "【献立】\n1日目：A\n2日目：B" 0 = "【献立】\n1日目：A\n2日目：B" :=
  trim_menu_days_nonpositive "【献立】\n1日目：A\n2日目：B" 0 (by decide)

/-- C7: when the shopping-list section marker `【買い物リスト】` does not occur
in the input text, `parse_shopping_list` returns `none`, which is distinct
from a result containing an empty item list; the parser is a total Lean
function over arbitrary input text. -/
theorem parse_shopping_list_absent_marker (text : String)
    (h : containsSubstr text "【買い物リスト】" = false) :
    parse_shopping_list text = none ∧
    parse_shopping_list text ≠ some [("all", [])] := by
  have hnone : firstIdx "【買い物リスト】".data text.data = none := by
    unfold containsSubstr at h
    cases hf : firstIdx "【買い物リスト】".data text.data with
    | none => rfl
    | some j => rw [hf] at h; cases h
  have hmain : parse_shopping_list text = none := by
    unfold parse_shopping_list
    rw [hnone]
  exact ⟨hmain, by rw [hmain]; intro hc; cases hc⟩

/-- C7 witness: a concrete text without the marker. -/
theorem parse_shopping_list_absent_marker_witness :
    parse_shopping_list "こんにちは" = none ∧
    parse_shopping_list "こんにちは" ≠ some [("all", [])] :=
  parse_shopping_list_absent_marker "こんにちは" (by decide)

/-- C8: when the generation collaborator fails (rate-limited, unauthenticated
or unknown), the run block aborts with no persisted state change — the store
(usage counter and history) is returned unchanged and no result is produced —
and conversely the usage counter changes only when the generation succeeded. -/
theorem generation_failure_no_persist (premium recipe_mode : Bool)
    (uid today now text_input : String) (days people dishes : Int)
    (selected_meals methods : List String) (calorie : Int)
    (gen : GenResult) (store : Store) :
    ((∀ t, gen ≠ GenResult.success t) →
      runGeneration premium recipe_mode uid today now text_input days people dishes
        selected_meals methods calorie gen store = (store, none)) ∧
    ((runGeneration premium recipe_mode uid today now text_input days people dishes
        selected_meals methods calorie gen store).1.usage ≠ store.usage →
      ∃ t, gen = GenResult.success t) := by
  cases gen with
  | success t =>
    exact ⟨fun h => absurd rfl (h t), fun _ => ⟨t, rfl⟩⟩
  | rateLimited => exact ⟨fun _ => rfl, fun h => absurd rfl h⟩
  | authFailed => exact ⟨fun _ => rfl, fun h => absurd rfl h⟩
  | unknownFailure => exact ⟨fun _ => rfl, fun h => absurd rfl h⟩

/-- C8 witness: the rate-limited failure aborts with the store unchanged. -/
theorem generation_failure_no_persist_witness :
    runGeneration false false "u" "2026-10-12" "2026-10-12T00:00:00" "卵" 1 1 1
      ["夜"] [] 600 GenResult.rateLimited ⟨[], []⟩ = (⟨[], []⟩, none) :=
  (generation_failure_no_persist false false "u" "2026-10-12" "2026-10-12T00:00:00" "卵"
      1 1 1 ["夜"] [] 600 GenResult.rateLimited ⟨[], []⟩).1
    (fun _t h => GenResult.noConfusion h)

set_option maxRecDepth 40000

/-- C9: the menu-mode prompt builder is a pure string-building function; for
`dayCount = 2`, `peopleCount = 2`, `mealSlots = {Night}`, `dishesPerMeal = 1`
the prompt contains the substrings `2日分`, `2人分` and `1品`, and with an
empty cooking-constraint set it contains the explicit none marker `なし`. -/
theorem menu_prompt_contents :
    containsSubstr (menuPrompt "卵 豆腐" 2 2 1 600 ["夜"] []) "2日分" = true ∧
    containsSubstr (menuPrompt "卵 豆腐" 2 2 1 600 ["夜"] []) "2人分" = true ∧
    containsSubstr (menuPrompt "卵 豆腐" 2 2 1 600 ["夜"] []) "1品" = true ∧
    containsSubstr (menuPrompt "卵 豆腐" 2 2 1 600 ["夜"] []) "なし" = true := by
  refine ⟨by decide, by decide, by decide, by decide⟩

theorem scaleAmount_no_digit (k : Nat) : ∀ (l : List Char),
    (∀ c ∈ l, c.isDigit = false) → scaleAmount k l = l
  | [], _ => rfl
  | c :: cs, h => by
    unfold scaleAmount
    rw [if_neg (by simp [h c (List.mem_cons_self c cs)])]
    rw [scaleAmount_no_digit k cs (fun x hx => h x (List.mem_cons_of_mem c hx))]

theorem scaleAmount_decomp (k : Nat) : ∀ (p d r : List Char),
    (∀ c ∈ p, c.isDigit = false) → d ≠ [] → (∀ c ∈ d, c.isDigit = true) →
    (∀ c ∈ r.head?, c.isDigit = false) →
    scaleAmount k (p ++ (d ++ r)) = p ++ (Nat.toDigits 10 (digitsToNat d * k) ++ r)
  | [], d, r, _, hne, hd, hr => by
    cases d with
    | nil => exact absurd rfl hne
    | cons c cs =>
      have hc : c.isDigit = true := hd c (List.mem_cons_self c cs)
      have htw := takeWhile_eq_of_all (p := Char.isDigit) (c :: cs) r hd hr
      simp only [List.nil_append, List.cons_append]
      unfold scaleAmount
      rw [if_pos hc]
      rw [show c :: (cs ++ r) = (c :: cs) ++ r from rfl]
      rw [htw.1, htw.2]
  | c :: p, d, r, hp, hne, hd, hr => by
    have hc : c.isDigit = false := hp c (List.mem_cons_self c p)
    simp only [List.cons_append]
    unfold scaleAmount
    rw [if_neg (by simp [hc])]
    rw [scaleAmount_decomp k p d r (fun x hx => hp x (List.mem_cons_of_mem c hx)) hne hd hr]

/-- C2: the quantity-scaling operation (modelled from the spec, since the
QuantityScaler of spec §4.1 has no implementation under `src/`): it is total,
`scale("200g",3) = "600g"`, `scale("適量",3) = "適量"`,
`scale("2-3個",2) = "4-3個"`; a string without digits is returned unchanged,
and on a string decomposing as a digit-free prefix, a first maximal digit run
and a remainder, exactly that run is replaced by its value times the
multiplier rendered in decimal. -/
theorem quantity_scaler_contract :
    scale "200g" 3 = "600g" ∧ scale "適量" 3 = "適量" ∧ scale "2-3個" 2 = "4-3個" ∧
    (∀ (s : String) (k : Nat), 0 < k → (∀ c ∈ s.data, c.isDigit = false) → scale s k = s) ∧
    (∀ (p d r : List Char) (k : Nat), 0 < k → (∀ c ∈ p, c.isDigit = false) → d ≠ [] →
      (∀ c ∈ d, c.isDigit = true) → (∀ c ∈ r.head?, c.isDigit = false) →
      scale ⟨p ++ (d ++ r)⟩ k = ⟨p ++ (Nat.toDigits 10 (digitsToNat d * k) ++ r)⟩) := by
  refine ⟨by decide, by decide, by decide, ?_, ?_⟩
  · intro s k _ h
    cases s with
    | mk data =>
      show (⟨scaleAmount k data⟩ : String) = ⟨data⟩
      rw [scaleAmount_no_digit k data h]
  · intro p d r k _ hp hne hd hr
    show (⟨scaleAmount k (p ++ (d ++ r))⟩ : String) = _
    rw [scaleAmount_decomp k p d r hp hne hd hr]

/-- C2 witness: the no-digit clause and the decomposition clause instantiated
at concrete inputs. -/
theorem quantity_scaler_contract_witness :
    scale "適量です" 5 = "適量です" ∧
    scale ⟨"個数".data ++ ("12".data ++ "個".data)⟩ 3 =
      ⟨"個数".data ++ (Nat.toDigits 10 (digitsToNat "12".data * 3) ++ "個".data)⟩ :=
  ⟨quantity_scaler_contract.2.2.2.1 "適量です" 5 (by decide) (by decide),
   quantity_scaler_contract.2.2.2.2 "個数".data "12".data "個".data 3 (by decide)
     (by decide) (by decide) (by decide) (by decide)⟩

theorem dayHeaderKey_endsWith {ln kk : List Char} (h : dayHeaderKey ln = some kk) :
    endsWithDayMarker ⟨kk⟩ = true := by
  unfold dayHeaderKey at h
  dsimp only at h
  split at h
  · cases h
  · split at h
    · split at h
      · cases h
        unfold endsWithDayMarker
        simp [List.isSuffixOf, List.isPrefixOf]
      · cases h
    · cases h

theorem mapAppend_keys (m : List (String × List String)) (k v : String) :
    (mapAppend m k v).map Prod.fst = m.map Prod.fst := by
  induction m with
  | nil => rfl
  | cons kv rest ih =>
    unfold mapAppend at ih ⊢
    simp only [List.map_cons]
    rw [ih]
    by_cases hk : kv.1 = k
    · simp [hk]
    · simp [hk]

theorem setdefault_keys (m : List (String × List String)) (k k1 : String)
    (h : k1 ∈ (setdefault m k).map Prod.fst) : k1 ∈ m.map Prod.fst ∨ k1 = k := by
  unfold setdefault at h
  split at h
  · exact Or.inl h
  · rw [List.map_append] at h
    rcases List.mem_append.mp h with h1 | h2
    · exact Or.inl h1
    · simp at h2
      exact Or.inr h2

theorem shopLoop_header (cd : Option String) (m : List (String × List String))
    (ln : List Char) (rest : List (List Char)) (kk : List Char)
    (h : dayHeaderKey ln = some kk) :
    shopLoop cd m (ln :: rest) = shopLoop (some ⟨kk⟩) (setdefault m ⟨kk⟩) rest := by
  conv_lhs => unfold shopLoop
  rw [h]

theorem shopLoop_blank (cd : Option String) (m : List (String × List String))
    (ln : List Char) (rest : List (List Char)) (h : dayHeaderKey ln = none)
    (hb : (stripChars (lstripBullets ln)).isEmpty = true) :
    shopLoop cd m (ln :: rest) = shopLoop cd m rest := by
  conv_lhs => unfold shopLoop
  rw [h]
  dsimp only
  rw [if_pos hb]

theorem shopLoop_item_some (d : String) (m : List (String × List String))
    (ln : List Char) (rest : List (List Char)) (h : dayHeaderKey ln = none)
    (hb : (stripChars (lstripBullets ln)).isEmpty = false) :
    shopLoop (some d) m (ln :: rest) =
      shopLoop (some d) (mapAppend m d ⟨stripChars (lstripBullets ln)⟩) rest := by
  conv_lhs => unfold shopLoop
  rw [h]
  dsimp only
  rw [if_neg (by simp [hb])]

theorem shopLoop_item_none (m : List (String × List String))
    (ln : List Char) (rest : List (List Char)) (h : dayHeaderKey ln = none)
    (hb : (stripChars (lstripBullets ln)).isEmpty = false) :
    shopLoop none m (ln :: rest) =
      shopLoop none (mapAppend (setdefault m "all") "all" ⟨stripChars (lstripBullets ln)⟩) rest := by
  conv_lhs => unfold shopLoop
  rw [h]
  dsimp only
  rw [if_neg (by simp [hb])]

theorem shopLoop_keys : ∀ (lines : List (List Char)) (cd : Option String)
    (m : List (String × List String)),
    (∀ k ∈ m.map Prod.fst, k = "all" ∨ endsWithDayMarker k = true) →
    ∀ k ∈ (shopLoop cd m lines).map Prod.fst, k = "all" ∨ endsWithDayMarker k = true
  | [], _, _, hm => hm
  | ln :: rest, cd, m, hm => by
    cases hkk : dayHeaderKey ln with
    | some kk =>
      rw [shopLoop_header cd m ln rest kk hkk]
      refine shopLoop_keys rest _ _ ?_
      intro k hk
      rcases setdefault_keys m ⟨kk⟩ k hk with h1 | rfl
      · exact hm k h1
      · exact Or.inr (dayHeaderKey_endsWith hkk)
    | none =>
      cases hb : (stripChars (lstripBullets ln)).isEmpty with
      | true =>
        rw [shopLoop_blank cd m ln rest hkk hb]
        exact shopLoop_keys rest cd m hm
      | false =>
        cases cd with
        | some d =>
          rw [shopLoop_item_some d m ln rest hkk hb]
          refine shopLoop_keys rest _ _ ?_
          intro k hk
          rw [mapAppend_keys] at hk
          exact hm k hk
        | none =>
          rw [shopLoop_item_none m ln rest hkk hb]
          refine shopLoop_keys rest _ _ ?_
          intro k hk
          rw [mapAppend_keys] at hk
          rcases setdefault_keys m "all" k hk with h1 | rfl
          · exact hm k h1
          · exact Or.inl rfl

/-- C1 (amended): the mapping returned by `parse_shopping_list` satisfies:
every key is either the sentinel `"all"` or ends with the day suffix `日目`,
and when no day-label key is present the map is exactly `{"all": items}`.
When day-label keys are present the sentinel `"all"` is NOT dropped — items
that precede the first day header survive under `"all"` alongside the
day-label keys (see the counterexample). -/
theorem parse_shopping_list_keys (text : String) (m : List (String × List String))
    (h : parse_shopping_list text = some m) :
    (∀ k ∈ m.map Prod.fst, k = "all" ∨ endsWithDayMarker k = true) ∧
    ((m.map Prod.fst).any endsWithDayMarker = false → ∃ l, m = [("all", l)]) := by
  unfold parse_shopping_list at h
  split at h
  · cases h
  · dsimp only at h
    split at h
    · cases h
    · split at h
      · cases h
        rename_i hday
        refine ⟨shopLoop_keys _ none [] (by intro k hk; cases hk), fun hno => ?_⟩
        rw [hno] at hday
        cases hday
      · cases h
        exact ⟨by intro k hk; simp at hk; exact Or.inl hk, fun _ => ⟨_, rfl⟩⟩

/-- C1 counterexample: on an input whose shopping-list section has an item
line before the first day header, the returned map contains a day-label key
AND the sentinel key `"all"` — the claimed never-mixed invariant is false on
the code. -/
theorem parse_shopping_list_mixed_counterexample :
    (parse_shopping_list "【買い物リスト】\n卵\n1日目：\n豆腐").any
      (fun m => (m.map Prod.fst).any endsWithDayMarker &&
        (m.map Prod.fst).contains "all") = true := by decide

/-- C1 witness: the amended key-shape theorem applied to a concrete parse. -/
theorem parse_shopping_list_keys_witness :
    "1日目" = "all" ∨ endsWithDayMarker "1日目" = true :=
  (parse_shopping_list_keys "【買い物リスト】\n1日目：\n・卵" [("1日目", ["卵"])]
      (by decide)).1 "1日目" (by decide)

/-- C3 (amended): in `parse_shopping_list`, a non-blank line is classified as
a day header exactly when it consists of a nonempty ASCII digit run, the day
suffix `日目`, and a REQUIRED colon (`:` or `：`), optionally followed by
whitespace (vacuous for the stripped lines the parser feeds in); a bare day
label with no colon does NOT match the day-header pattern and is treated as
an item line. -/
theorem day_header_requires_colon (ds tail : List Char) (c : Char)
    (hne : ds ≠ []) (hdig : ∀ x ∈ ds, x.isDigit = true)
    (hc : c = ':' ∨ c = '：') (htail : ∀ x ∈ tail, isPySpace x = true) :
    dayHeaderKey (ds ++ '日' :: '目' :: c :: tail) = some (ds ++ ['日', '目']) ∧
    dayHeaderKey (ds ++ ['日', '目']) = none := by
  constructor
  · have htw := takeWhile_eq_of_all (p := Char.isDigit) ds ('日' :: '目' :: c :: tail)
      hdig (by intro x hx; simp at hx; subst hx; decide)
    unfold dayHeaderKey
    rw [htw.1, htw.2]
    dsimp only
    rw [if_neg (by simpa using hne)]
    have hcb : (c = ':' || c = '：') = true := by
      rcases hc with rfl | rfl <;> decide
    simp only []
    rw [if_pos (by simp [hcb, List.all_eq_true.mpr htail])]
  · have htw := takeWhile_eq_of_all (p := Char.isDigit) ds ['日', '目']
      hdig (by intro x hx; simp at hx; subst hx; decide)
    unfold dayHeaderKey
    rw [htw.1, htw.2]
    dsimp only
    rw [if_neg (by simpa using hne)]
    rfl

/-- C3 counterexample: the line `1日目` (a day label with no colon) is not
classified as a day header — `parse_shopping_list` files it as an item under
`"all"` and creates no day key, contrary to the claim that the colon is
optional. -/
theorem day_header_bare_label_counterexample :
    parse_shopping_list "【買い物リスト】\n1日目\n卵" = some [("all", ["1日目", "卵"])] ∧
    dayHeaderKey "1日目".data = none ∧
    dayHeaderKey "1日目：".data = some "1日目".data :=
  ⟨by decide, by decide, by decide⟩

/-- C3 witness: the classification theorem applied at the digit run `1`,
colon `：` and empty whitespace tail. -/
theorem day_header_requires_colon_witness :
    dayHeaderKey (['1'] ++ '日' :: '目' :: '：' :: []) = some (['1'] ++ ['日', '目']) ∧
    dayHeaderKey (['1'] ++ ['日', '目']) = none :=
  day_header_requires_colon ['1'] [] '：' (by decide) (by decide) (Or.inr rfl) (by decide)

theorem menuSpan_start_le (text : List Char) (s e : Nat)
    (h : menuSpan text = some (s, e)) : s ≤ text.length := by
  unfold menuSpan at h
  split at h
  · cases h
  · rename_i i hi
    dsimp only at h
    cases h
    have h2 := (firstIdx_sound _ text i hi).2
    have h4 : "【献立】".data.length = (['【', '献', '立', '】'] : List Char).length := by decide
    omega

/-- C5: `trim_menu_days` returns the input unchanged when either no menu
section matching the start marker is present, or at most `N` day-blocks are
found inside the menu section; no padding is performed and a missing menu
section is not an error. -/
theorem trim_menu_days_noop (text : String) (days : Int) (_h1 : 1 ≤ days)
    (h : menuSpan text.data = none ∨
      ∃ s e, menuSpan text.data = some (s, e) ∧
        ((findAllDayBlocks ((text.data.drop s).take (e - s))).length : Int) ≤ days) :
    trim_menu_days text days = text := by
  unfold trim_menu_days
  by_cases h0 : days ≤ 0
  · rw [if_pos h0]
  · rw [if_neg h0]
    rcases h with hnone | ⟨s, e, hse, hle⟩
    · rw [hnone]
    · rw [hse]
      dsimp only
      rw [if_pos hle]

/-- C5 witness: a text without the menu marker (clause i), and a 2-day menu
section with a requested day count of 3 (clause ii). -/
theorem trim_menu_days_noop_witness :
    trim_menu_days "献立のないテキスト" 1 = "献立のないテキスト" ∧
    trim_menu_days "【献立】\n1日目：A\n2日目：B\n【材料】x" 3 =
      "【献立】\n1日目：A\n2日目：B\n【材料】x" :=
  ⟨trim_menu_days_noop "献立のないテキスト" 1 (by decide) (Or.inl (by decide)),
   trim_menu_days_noop "【献立】\n1日目：A\n2日目：B\n【材料】x" 3 (by decide)
     (Or.inr ⟨4, 16, by decide, by decide⟩)⟩

/-- C4: when `trim_menu_days` finds more than `N ≥ 1` day-blocks inside the
menu section spanning positions `[s, e)`, the output is obtained by splicing
`"\n" ++ strip(join of the first N day-blocks in original order) ++ "\n"`
into exactly that span: the first `s` characters and the last `length - e`
characters of the output are byte-identical to the input, so all text outside
the menu-section body — including the material, instructions and
shopping-list sections, which lie entirely outside the span — is unaltered. -/
theorem trim_menu_days_frame (text : String) (days : Int) (s e : Nat)
    (h1 : 1 ≤ days)
    (hspan : menuSpan text.data = some (s, e))
    (hover : days < ((findAllDayBlocks ((text.data.drop s).take (e - s))).length : Int)) :
    (trim_menu_days text days).data =
      text.data.take s ++ '\n' ::
        (stripChars (List.intercalate ['\n']
          ((findAllDayBlocks ((text.data.drop s).take (e - s))).take days.toNat)) ++
          '\n' :: text.data.drop e) ∧
    (trim_menu_days text days).data.take s = text.data.take s ∧
    (trim_menu_days text days).data.reverse.take (text.data.length - e) =
      (text.data.drop e).reverse := by
  have h0 : ¬ days ≤ 0 := by omega
  have hmain : (trim_menu_days text days).data =
      text.data.take s ++ '\n' ::
        (stripChars (List.intercalate ['\n']
          ((findAllDayBlocks ((text.data.drop s).take (e - s))).take days.toNat)) ++
          '\n' :: text.data.drop e) := by
    unfold trim_menu_days
    rw [if_neg h0, hspan]
    dsimp only
    rw [if_neg (not_le.mpr hover)]
  refine ⟨hmain, ?_, ?_⟩
  · rw [hmain]
    have hs : s ≤ text.data.length := menuSpan_start_le text.data s e hspan
    have hlen : (text.data.take s).length = s := by
      rw [List.length_take]
      omega
    exact List.take_left' hlen
  · rw [hmain]
    have hsplit : text.data.take s ++ '\n' ::
        (stripChars (List.intercalate ['\n']
          ((findAllDayBlocks ((text.data.drop s).take (e - s))).take days.toNat)) ++
          '\n' :: text.data.drop e) =
        (text.data.take s ++ '\n' ::
          stripChars (List.intercalate ['\n']
            ((findAllDayBlocks ((text.data.drop s).take (e - s))).take days.toNat)) ++
          ['\n']) ++ text.data.drop e := by
      simp
    rw [hsplit, List.reverse_append]
    have hlen2 : (text.data.drop e).reverse.length = text.data.length - e := by
      rw [List.length_reverse, List.length_drop]
    exact List.take_left' hlen2

/-- C4 witness: a 3-day menu trimmed to 2 days; the 4 characters before the
menu-section body are preserved. -/
theorem trim_menu_days_frame_witness :
    (trim_menu_days "【献立】\n1日目：A\n2日目：B\n3日目：C\n【材料】x" 2).data.take 4 =
      "【献立】\n1日目：A\n2日目：B\n3日目：C\n【材料】x".data.take 4 :=
  (trim_menu_days_frame "【献立】\n1日目：A\n2日目：B\n3日目：C\n【材料】x" 2 4 22
    (by decide) (by decide) (by decide)).2.1
